import Mathlib

/-!
# Verification of the rond policy-enforcement pipeline

A shallow embedding of the authorization sidecar's core: policy-name
canonicalization and evaluator construction (`NewOPAEvaluator`), the
`get_header` built-in, the policy middleware (route lookup, documentation
passthrough, standalone prefix stripping, structured error responses),
the reverse-proxy handler (`rbacHandler` and its `Director`), and the
header-decoding helper `unmarshalHeader`.

Pure Go functions become Lean functions; `http.Header` maps become
association lists from canonical key to the ordered list of values;
fallible code returns `Option`/`Except`.
-/

namespace Rond

/-! ## Canonical MIME header keys

Modelled from the spec: the Go implementation of header canonicalization
(`textproto.CanonicalMIMEHeaderKey`, used both when building
`PolicyInput.request.headers` and inside the `get_header` built-in) is not
part of the provided sources.  The spec describes it as the form "where
each hyphen-separated segment begins with an uppercase letter
(e.g. `X-Api-Key`)", the remaining letters of each segment being
lowercased (the example "x-api-key" becomes "X-Api-Key").

We work on ASCII character codes (`Char.toNat`): 45 is `'-'`, 65–90 are
`'A'`–`'Z'`, 97–122 are `'a'`–`'z'`. -/

/-- Lowercase an ASCII letter code; leave any other code unchanged. -/
def natLower (c : Nat) : Nat :=
  if 65 ≤ c ∧ c ≤ 90 then c + 32 else c

/-- Uppercase an ASCII letter code; leave any other code unchanged. -/
def natUpper (c : Nat) : Nat :=
  if 97 ≤ c ∧ c ≤ 122 then c - 32 else c

/-- Canonicalize a list of character codes.  The `upper` flag records
whether the current character starts a hyphen-separated segment: segment
starts are uppercased, all other characters are lowercased, and a hyphen
(code 45) makes the next character a segment start. -/
def canonCodes : Bool → List Nat → List Nat
  | _, [] => []
  | upper, c :: rest =>
      (if upper then natUpper c else natLower c) :: canonCodes (c = 45) rest

/-- Canonical form of a header key, e.g. `canonicalHeaderKey "x-api-key" =
"X-Api-Key"` and `canonicalHeaderKey "exampleKey" = "Examplekey"`. -/
def canonicalHeaderKey (s : String) : String :=
  ⟨(canonCodes true (s.data.map Char.toNat)).map Char.ofNat⟩

/-- ASCII-lowercased code list of a string: two keys are "the same up to
letter case" exactly when their `lowerCodes` agree. -/
def lowerCodes (s : String) : List Nat :=
  s.data.map (fun c => natLower c.toNat)

/-! ## Header maps

`http.Header` is `map[string][]string` with canonical keys; we embed it as
an association list from key to the ordered list of values. -/

/-- Headers: association list from (canonical) header name to values. -/
abbrev Headers := List (String × List String)

/-- Map lookup on the association list (Go `headers[key]`). -/
def lookupHeader : Headers → String → Option (List String)
  | [], _ => none
  | (k, vs) :: rest, key => if k = key then some vs else lookupHeader rest key

/-- `http.Header.Get`: the first value stored under the canonical form of
`key`, or `""` when the key is absent or its value list is empty. -/
def headerGet (headers : Headers) (key : String) : String :=
  match lookupHeader headers (canonicalHeaderKey key) with
  | some (v :: _) => v
  | _ => ""

/-- Modelled from the spec: the Go body of the `get_header` built-in
registered by `NewOPAEvaluator` is not part of the provided sources.  Per
the spec (§4.4 and the README section "Get_Header Built-in function") it
"returns the first value of `headers[canonical(headerKey)]` if present,
else the empty string" — i.e. exactly `http.Header.Get`. -/
def get_header (headerKey : String) (headers : Headers) : String :=
  headerGet headers headerKey

/-! ### Case-independence of canonicalization -/

theorem natUpper_natLower (c : Nat) : natUpper (natLower c) = natUpper c := by
  unfold natUpper natLower
  by_cases h : 65 ≤ c ∧ c ≤ 90
  · have h1 : 97 ≤ c + 32 ∧ c + 32 ≤ 122 := by omega
    have h2 : ¬(97 ≤ c ∧ c ≤ 122) := by omega
    simp only [if_pos h, if_pos h1, if_neg h2]
    omega
  · simp only [if_neg h]

theorem natLower_eq_45_iff (c : Nat) : natLower c = 45 ↔ c = 45 := by
  unfold natLower
  split <;> omega

/-- Canonicalization only depends on the ASCII-lowercased code list. -/
theorem canonCodes_of_natLower_eq (b : Bool) (l1 l2 : List Nat)
    (h : l1.map natLower = l2.map natLower) :
    canonCodes b l1 = canonCodes b l2 := by
  induction l1 generalizing b l2 with
  | nil => cases l2 <;> simp_all [canonCodes]
  | cons c rest ih =>
      cases l2 with
      | nil => simp at h
      | cons c' rest' =>
          simp only [List.map_cons, List.cons.injEq] at h
          obtain ⟨hc, hrest⟩ := h
          have hup : natUpper c = natUpper c' := by
            rw [← natUpper_natLower c, ← natUpper_natLower c', hc]
          have hlo : natLower c = natLower c' := hc
          have h45 : (c = 45) = (c' = 45) := by
            have := (natLower_eq_45_iff c).symm.trans
              (hc ▸ natLower_eq_45_iff c')
            simp only [eq_iff_iff]
            exact this
          simp only [canonCodes, hup, hlo, h45, ih _ rest' hrest]

/-- Canonical header keys agree for keys equal up to letter case. -/
theorem canonicalHeaderKey_of_lowerCodes_eq (k1 k2 : String)
    (h : lowerCodes k1 = lowerCodes k2) :
    canonicalHeaderKey k1 = canonicalHeaderKey k2 := by
  unfold canonicalHeaderKey
  unfold lowerCodes at h
  have : (k1.data.map Char.toNat).map natLower
      = (k2.data.map Char.toNat).map natLower := by
    simpa [List.map_map, Function.comp] using h
  rw [canonCodes_of_natLower_eq true _ _ this]

/-! ## The OPA evaluator factory

From `NewOPAEvaluator` in the sources: the policy name is sanitized with
`strings.Replace(policy, ".", "_", -1)` — every occurrence of the single
character `"."` becomes `"_"` — and the policy query string is
`fmt.Sprintf("data.policies.%s", sanitizedPolicy)`.  The JSON encoding and
parsing of the evaluation input are omitted here: they do not contribute
to the query string or to `RequiredAllowPermission`. -/

/-- `strings.Replace(policy, ".", "_", -1)`: the pattern is the single
character `'.'`, so the replacement substitutes each `'.'` by `'_'`. -/
def sanitizePolicy (policy : String) : String :=
  ⟨policy.data.map (fun c => if c = '.' then '_' else c)⟩

/-- The fields of the Go `OPAEvaluator` relevant to the query: the query
string bound into the prepared query, and the stored permission name. -/
structure OPAEvaluator where
  queryString : String
  RequiredAllowPermission : String
deriving DecidableEq, Repr

/-- `NewOPAEvaluator` from the sources, restricted to the construction of
the policy query string and the stored permission name. -/
def NewOPAEvaluator (policy : String) : OPAEvaluator :=
  let sanitizedPolicy := sanitizePolicy policy
  let queryString := "data.policies." ++ sanitizedPolicy
  { queryString := queryString, RequiredAllowPermission := policy }

/-! ## Go `strings.Replace(s, old, new, 1)` with `new = ""`

Used by the middleware in standalone mode to strip the configured path
prefix: the FIRST occurrence of `old` in `s` is removed; if `old` does not
occur, `s` is returned unchanged. -/

/-- Remove the first occurrence of `pat` from a character list, or `none`
when `pat` does not occur. -/
def removeFirstOcc (pat : List Char) : List Char → Option (List Char)
  | [] => none
  | c :: rest =>
      if pat.isPrefixOf (c :: rest) then some ((c :: rest).drop pat.length)
      else (removeFirstOcc pat rest).map (c :: ·)

/-- `strings.Replace(s, old, "", 1)`. -/
def goReplaceFirstEmpty (s old : String) : String :=
  match removeFirstOcc old.data s.data with
  | some l => ⟨l⟩
  | none => s

/-! ## The policy middleware

Modelled from the spec: the Go `OPAMiddleware` function is not part of the
provided sources (only its tests are).  Per spec §4.6 the middleware
looks up `(method, path)` in the OpenAPI route table; per §4.1 a request
whose path equals the configured `targetServiceOASPath` matches a sentinel
`RondConfig` with policy name `""` treated as always-allow, regardless of
whether the path is declared (documentation passthrough); a `notFound`
yields a 404 via `failResponseWithCode`; a matched route whose policy name
is empty yields a 403; otherwise the matched `RondConfig` is attached to
the request context and the next handler is invoked.  In standalone mode a
single occurrence of `pathPrefixStandalone` is stripped from the requested
path before route lookup.  Route matching is modelled as exact
(method, path) equality against the table — path templates are not needed
by the properties verified here.  The spec leaves the 403 body
unspecified; it is modelled with empty error strings, and no property
below depends on it. -/

/-- The request-flow part of a route's `x-permission` configuration. -/
structure RequestFlow where
  policyName : String
deriving DecidableEq, Repr

/-- Per-route authorization configuration parsed from OpenAPI
`x-permission` (dot-notated policy name kept verbatim). -/
structure RondConfig where
  requestFlow : RequestFlow
deriving DecidableEq, Repr

/-- The OpenAPI route table: `(method, path, RondConfig)` entries. -/
abbrev RouteTable := List (String × String × RondConfig)

/-- Route lookup: the configuration of the first entry matching the
method and the (already prefix-stripped) path. -/
def lookupRoute : RouteTable → String → String → Option RondConfig
  | [], _, _ => none
  | (m, p, cfg) :: rest, method, path =>
      if m = method ∧ p = path then some cfg else lookupRoute rest method path

/-- The environment options consulted by the middleware. -/
structure EnvironmentVariables where
  targetServiceOASPath : String := ""
  standalone : Bool := false
  pathPrefixStandalone : String := ""
deriving DecidableEq, Repr

/-- The structured error body `types.RequestError`. -/
structure RequestError where
  statusCode : Nat
  error : String
  message : String
deriving DecidableEq, Repr

/-- A response written by the middleware: status code, response headers,
and the JSON error body (when one is written). -/
structure HTTPResponse where
  statusCode : Nat
  headers : List (String × String)
  body : Option RequestError
deriving DecidableEq, Repr

/-- `failResponseWithCode` from the sources: writes the status code, then
the JSON-marshalled `RequestError` as the body.  It sets NO response
header — in particular no `Content-Type`.  (`json.Marshal` of a struct of
an int and two strings cannot fail, so the early-return branch is dead
and the body is always written.) -/
def failResponseWithCode (statusCode : Nat)
    (technicalError businessError : String) : HTTPResponse :=
  { statusCode := statusCode
    headers := []
    body := some { statusCode := statusCode
                   error := technicalError
                   message := businessError } }

/-- What the middleware does with a request: pass it to the next handler
with a `RondConfig` attached to the context, or terminate it with a
response. -/
inductive MiddlewareOutcome where
  | next (cfg : RondConfig)
  | respond (resp : HTTPResponse)
deriving DecidableEq, Repr

/-- The path used for route lookup: in standalone mode, the requested path
with the first occurrence of the configured prefix removed. -/
def routedPath (env : EnvironmentVariables) (path : String) : String :=
  if env.standalone then goReplaceFirstEmpty path env.pathPrefixStandalone
  else path

/-- Modelled from the spec: the policy middleware (`OPAMiddleware`),
spec §4.6 with the §4.1 documentation-passthrough special case. -/
def OPAMiddleware (table : RouteTable) (env : EnvironmentVariables)
    (method path : String) : MiddlewareOutcome :=
  if path = env.targetServiceOASPath then
    .next { requestFlow := { policyName := "" } }
  else
    match lookupRoute table method (routedPath env path) with
    | none => .respond (failResponseWithCode 404
        ("not found oas definition: " ++ method ++ " " ++ path)
        "The request doesn't match any known API")
    | some cfg =>
        if cfg.requestFlow.policyName = "" then
          .respond (failResponseWithCode 403 "" "")
        else .next cfg

/-! ## The proxy handler (`rbacHandler`) -/

/-- The part of the `Environment` read by the proxy handler. -/
structure Env where
  hostURL : String
deriving DecidableEq, Repr

/-- What `rbacHandler` does with a request: write an error status without
constructing the reverse proxy, or serve it through a reverse proxy whose
`Director` targets the given host. -/
inductive RbacOutcome where
  | serverError (statusCode : Nat)
  | proxied (targetHost : String)
deriving DecidableEq, Repr

/-- `rbacHandler` from `handler.go`: if the `Environment` cannot be
resolved from the request context (`GetEnv` returns an error), write
status 500 and return; otherwise construct the reverse proxy with
`env.HostURL` as the `Director` target and serve through it. -/
def rbacHandler (envResult : Except String Env) : RbacOutcome :=
  match envResult with
  | .error _ => .serverError 500
  | .ok env => .proxied env.hostURL

/-- The fields of an outgoing `http.Request` touched or framed by the
`Director`; the body is an opaque byte list. -/
structure ProxyRequest where
  method : String
  urlHost : String
  urlPath : String
  urlRawQuery : String
  body : List Nat
  headers : Headers
deriving DecidableEq, Repr

/-- Raw map-key membership test, Go `_, ok := req.Header[key]`. -/
def hasHeaderKey : Headers → String → Bool
  | [], _ => false
  | (k, _) :: rest, key => k = key || hasHeaderKey rest key

/-- Map assignment `h[key] = [v]`: replace the values stored under `key`,
or add the entry when absent. -/
def setHeaderValue : Headers → String → String → Headers
  | [], key, v => [(key, [v])]
  | (k, vs) :: rest, key, v =>
      if k = key then (k, [v]) :: rest else (k, vs) :: setHeaderValue rest key v

/-- The `Director` of the reverse proxy in `rbacHandler`: sets
`req.URL.Host` to the target host; when the raw header map has no
`"User-Agent"` entry, sets the `User-Agent` header to `""` (via
`Header.Set`, which canonicalizes the key); nothing else is touched. -/
def director (targetHostFromEnv : String) (req : ProxyRequest) : ProxyRequest :=
  let req1 := { req with urlHost := targetHostFromEnv }
  if hasHeaderKey req1.headers "User-Agent" then req1
  else { req1 with
         headers := setHeaderValue req1.headers
           (canonicalHeaderKey "User-Agent") "" }

/-! ## `unmarshalHeader` -/

/-- `unmarshalHeader` from the sources: reads the header with
`headers.Get(headerKey)`; when the stringified value is non-empty, runs
`json.Unmarshal` into `v` and returns `(err == nil, err)`; otherwise
returns `(false, nil)` without touching `v`.  `json.Unmarshal` is the
abstract decoder `jsonUnmarshal`, taking the input string and the current
destination and returning the error (if any) and the updated
destination. -/
def unmarshalHeader {V : Type} (headers : Headers) (headerKey : String)
    (v : V) (jsonUnmarshal : String → V → Option String × V) :
    Bool × Option String × V :=
  let headerValueStringified := headerGet headers headerKey
  if headerValueStringified ≠ "" then
    let r := jsonUnmarshal headerValueStringified v
    (r.1.isNone, r.1, r.2)
  else (false, none, v)

/-! ## The `todo` policy of scenario S6 -/

/-- Modelled from the spec (the policy engine is an external library):
`Eval` of the policy `todo { get_header("ExAmPlEkEy", input.headers) ==
"value" }` is allowed exactly when the rule body holds on the input. -/
def todoPolicyAllowed (headers : Headers) : Bool :=
  get_header "ExAmPlEkEy" headers == "value"

/-- Modelled from the spec (scenario S6): partial evaluation of this
policy — whose body contains no unknown reference — leaves exactly one
residual query when the body is satisfied and none when it is not. -/
def todoPolicyPartialQueriesCount (headers : Headers) : Nat :=
  if todoPolicyAllowed headers then 1 else 0

/-! ## Claim theorems -/

/-- C2: for every request whose path equals the configured
`targetServiceOASPath`, the policy middleware lets the request through to
the next handler (documentation passthrough, with the sentinel
always-allow `RondConfig`), whatever the route table declares for that
path and whatever `x-permission` it carries. -/
theorem oas_path_documentation_passthrough (table : RouteTable)
    (env : EnvironmentVariables) (method path : String)
    (h : path = env.targetServiceOASPath) :
    OPAMiddleware table env method path
      = .next { requestFlow := { policyName := "" } } := by
  unfold OPAMiddleware
  rw [if_pos h]

theorem oas_path_documentation_passthrough_witness :
    OPAMiddleware
      [("POST", "/documentation/json",
        { requestFlow := { policyName := "foobar" } })]
      { targetServiceOASPath := "/documentation/json" }
      "POST" "/documentation/json"
      = .next { requestFlow := { policyName := "" } } :=
  oas_path_documentation_passthrough _ _ "POST" "/documentation/json" rfl

/-- C3: at the failing input (a `GET /not-existing-path` request matching
no route, with no documentation passthrough configured), the middleware
responds 404 with exactly the claimed `RequestError` body, but the
response carries NO headers at all: `failResponseWithCode` in the sources
never sets `Content-Type`, contradicting the claim, the spec and the
repository's own test, which require `application/json`. -/
theorem notFound_responds_404_without_content_type :
    OPAMiddleware [] {} "GET" "/not-existing-path"
      = .respond
          { statusCode := 404
            headers := []
            body := some
              { statusCode := 404
                error := "not found oas definition: GET /not-existing-path"
                message := "The request doesn't match any known API" } } := by
  decide

/-- C5: `get_header k h` returns the first element of
`h[canonical(k)]` when that key is present, the empty string when it is
absent, and its result depends on `k` only up to ASCII letter case.  (The
built-in is a pure Lean function, hence deterministic and
side-effect-free by construction.) -/
theorem get_header_first_value_case_insensitive (k1 k2 : String)
    (h : Headers) :
    (∀ v vs, lookupHeader h (canonicalHeaderKey k1) = some (v :: vs) →
        get_header k1 h = v)
    ∧ (lookupHeader h (canonicalHeaderKey k1) = none → get_header k1 h = "")
    ∧ (lowerCodes k1 = lowerCodes k2 → get_header k1 h = get_header k2 h) := by
  refine ⟨?_, ?_, ?_⟩
  · intro v vs hl
    unfold get_header headerGet
    rw [hl]
  · intro hl
    unfold get_header headerGet
    rw [hl]
  · intro hlc
    unfold get_header headerGet
    rw [canonicalHeaderKey_of_lowerCodes_eq k1 k2 hlc]

theorem get_header_first_value_case_insensitive_witness :
    get_header "ExAmPlEkEy" [("Examplekey", ["value"])] = "value"
    ∧ get_header "ExAmPlEkEy" [("Other", ["value"])] = ""
    ∧ get_header "ExAmPlEkEy" [("Examplekey", ["value"])]
        = get_header "examplekey" [("Examplekey", ["value"])] :=
  ⟨(get_header_first_value_case_insensitive "ExAmPlEkEy" "examplekey"
      [("Examplekey", ["value"])]).1 "value" [] (by decide),
   (get_header_first_value_case_insensitive "ExAmPlEkEy" "examplekey"
      [("Other", ["value"])]).2.1 (by decide),
   (get_header_first_value_case_insensitive "ExAmPlEkEy" "examplekey"
      [("Examplekey", ["value"])]).2.2 (by decide)⟩

/-- C6: for the policy `todo` of scenario S6, with input headers
containing `exampleKey: value` (stored under the canonical key
`Examplekey`, as produced by `Header.Add`), `Eval` is allowed and
`Partial` leaves exactly one residual query; with the header absent,
`Eval` is not allowed and `Partial` leaves zero residual queries. -/
theorem todo_policy_eval_and_partial :
    (todoPolicyAllowed [("Examplekey", ["value"])] = true
      ∧ todoPolicyPartialQueriesCount [("Examplekey", ["value"])] = 1)
    ∧ (todoPolicyAllowed [] = false
      ∧ todoPolicyPartialQueriesCount [] = 0) := by
  decide

/-- C8: when the `Environment` cannot be resolved from the request
context, `rbacHandler` responds 500 and never reaches the reverse-proxy
construction. -/
theorem rbacHandler_env_error_responds_500 (err : String) :
    rbacHandler (.error err) = .serverError 500
    ∧ ∀ host, rbacHandler (.error err) ≠ .proxied host := by
  refine ⟨rfl, fun host hcontra => ?_⟩
  simp [rbacHandler] at hcontra

theorem rbacHandler_env_error_responds_500_witness :
    rbacHandler (.error "no env found in context") = .serverError 500 :=
  (rbacHandler_env_error_responds_500 "no env found in context").1

/-- C1: for every policy name `N` over the alphabet `[A-Za-z0-9_.]`,
`NewOPAEvaluator` builds the policy query string `"data.policies."`
followed by `N` with each `'.'` replaced by `'_'`, while the stored
`RequiredAllowPermission` and the `RondConfig` policy name the middleware
exposes in the request context keep the original dot form `N`
unchanged. -/
theorem newOPAEvaluator_query_and_context (N : String)
    (_halpha : ∀ c ∈ N.data, c.isAlphanum = true ∨ c = '_' ∨ c = '.') :
    (NewOPAEvaluator N).queryString
        = "data.policies." ++ ⟨N.data.map (fun c => if c = '.' then '_' else c)⟩
    ∧ (NewOPAEvaluator N).RequiredAllowPermission = N
    ∧ ∀ (table : RouteTable) (env : EnvironmentVariables)
        (method path : String) (cfg : RondConfig),
        lookupRoute table method (routedPath env path) = some cfg →
        cfg.requestFlow.policyName = N → N ≠ "" →
        path ≠ env.targetServiceOASPath →
        OPAMiddleware table env method path = .next cfg := by
  refine ⟨rfl, rfl, ?_⟩
  intro table env method path cfg hfound hname hne hpath
  unfold OPAMiddleware
  rw [if_neg hpath]
  simp only [hfound]
  rw [if_neg (by rw [hname]; exact hne)]

theorem newOPAEvaluator_query_and_context_witness :
    (NewOPAEvaluator "very.very.composed.permission").queryString
        = "data.policies.very_very_composed_permission"
    ∧ (NewOPAEvaluator "very.very.composed.permission").RequiredAllowPermission
        = "very.very.composed.permission"
    ∧ OPAMiddleware
        [("GET", "/composed/permission/",
          { requestFlow := { policyName := "very.very.composed.permission" } })]
        {} "GET" "/composed/permission/"
        = .next { requestFlow :=
            { policyName := "very.very.composed.permission" } } := by
  have h := newOPAEvaluator_query_and_context "very.very.composed.permission"
    (by decide)
  exact ⟨h.1.trans (by decide), h.2.1,
    h.2.2 _ {} "GET" "/composed/permission/"
      { requestFlow := { policyName := "very.very.composed.permission" } }
      (by decide) rfl
      (by decide) (by decide)⟩

/-- C4: a request matching a declared route whose `RondConfig` policy
name is empty is answered 403 and never reaches the next handler —
unless the request path equals `targetServiceOASPath`, in which case the
documentation passthrough takes precedence and the request is let
through. -/
theorem missing_permission_responds_403 (table : RouteTable)
    (env : EnvironmentVariables) (method path : String) (cfg : RondConfig)
    (hfound : lookupRoute table method (routedPath env path) = some cfg)
    (hempty : cfg.requestFlow.policyName = "") :
    (path ≠ env.targetServiceOASPath →
      OPAMiddleware table env method path
          = .respond (failResponseWithCode 403 "" "")
      ∧ (failResponseWithCode 403 "" "").statusCode = 403
      ∧ ∀ c, OPAMiddleware table env method path ≠ .next c)
    ∧ (path = env.targetServiceOASPath →
      OPAMiddleware table env method path
        = .next { requestFlow := { policyName := "" } }) := by
  constructor
  · intro hpath
    have houtcome : OPAMiddleware table env method path
        = .respond (failResponseWithCode 403 "" "") := by
      unfold OPAMiddleware
      rw [if_neg hpath]
      simp only [hfound]
      rw [if_pos hempty]
    refine ⟨houtcome, rfl, fun c hcontra => ?_⟩
    rw [houtcome] at hcontra
    exact MiddlewareOutcome.noConfusion hcontra
  · intro hpath
    unfold OPAMiddleware
    rw [if_pos hpath]

theorem missing_permission_responds_403_witness :
    OPAMiddleware
      [("POST", "/no-permission", { requestFlow := { policyName := "" } })]
      {} "POST" "/no-permission"
      = .respond (failResponseWithCode 403 "" "")
    ∧ (failResponseWithCode 403 "" "").statusCode = 403 := by
  have h := missing_permission_responds_403
    [("POST", "/no-permission", { requestFlow := { policyName := "" } })]
    {} "POST" "/no-permission" { requestFlow := { policyName := "" } }
    (by decide) rfl
  exact ⟨(h.1 (by decide)).1, (h.1 (by decide)).2.1⟩

/-! ### Helper lemmas for prefix stripping and header assignment -/

theorem removeFirstOcc_append_self (pat b : List Char) (hne : pat ≠ []) :
    removeFirstOcc pat (pat ++ b) = some b := by
  cases pat with
  | nil => exact absurd rfl hne
  | cons p pat' =>
      show removeFirstOcc (p :: pat') (p :: (pat' ++ b)) = some b
      rw [removeFirstOcc]
      have hpre : (p :: pat').isPrefixOf (p :: (pat' ++ b)) = true :=
        List.isPrefixOf_iff_prefix.mpr (List.prefix_append (p :: pat') b)
      rw [if_pos hpre]
      simp [List.drop_left]

/-- `removeFirstOcc` removes the FIRST occurrence: if `pat` occurs at the
end of `a` and at no position strictly inside `a`, the occurrence after
`a` is the one removed. -/
theorem removeFirstOcc_first (pat : List Char) (hne : pat ≠ []) (a b : List Char)
    (hfirst : ∀ t, t ≠ [] → t <:+ a → ¬ pat.isPrefixOf (t ++ pat ++ b)) :
    removeFirstOcc pat (a ++ pat ++ b) = some (a ++ b) := by
  induction a with
  | nil => simpa using removeFirstOcc_append_self pat b hne
  | cons c a' ih =>
      have hnotc : ¬ pat.isPrefixOf ((c :: a') ++ pat ++ b) :=
        hfirst (c :: a') (List.cons_ne_nil c a') (List.suffix_refl _)
      show removeFirstOcc pat (c :: (a' ++ pat ++ b)) = some (c :: (a' ++ b))
      rw [removeFirstOcc]
      rw [if_neg (by simpa using hnotc)]
      rw [ih (fun t ht hsuf => hfirst t ht (hsuf.trans (List.suffix_cons c a')))]
      rfl

theorem lookupHeader_setHeaderValue_self (h : Headers) (key v : String) :
    lookupHeader (setHeaderValue h key v) key = some [v] := by
  induction h with
  | nil => simp [setHeaderValue, lookupHeader]
  | cons e rest ih =>
      obtain ⟨k, vs⟩ := e
      by_cases hk : k = key
      · simp [setHeaderValue, lookupHeader, hk]
      · simp only [setHeaderValue, lookupHeader, if_neg hk]
        exact ih

theorem lookupHeader_setHeaderValue_other (h : Headers) (key v k : String)
    (hk : k ≠ key) :
    lookupHeader (setHeaderValue h key v) k = lookupHeader h k := by
  induction h with
  | nil => simp [setHeaderValue, lookupHeader, Ne.symm hk]
  | cons e rest ih =>
      obtain ⟨k', vs⟩ := e
      by_cases hk' : k' = key
      · subst hk'
        simp only [setHeaderValue, if_pos rfl, lookupHeader,
          if_neg (Ne.symm hk)]
      · simp only [setHeaderValue, if_neg hk']
        by_cases hkk : k' = k
        · simp [lookupHeader, hkk]
        · simp only [lookupHeader, if_neg hkk]
          exact ih

/-- C7: in standalone mode exactly the first occurrence of the configured
`PATH_PREFIX_STANDALONE` is removed from the requested path before route
lookup; in particular `/eval/eval/composed/permission/` is routed as
`/eval/composed/permission/`; with standalone mode off, the path is used
unchanged. -/
theorem standalone_strips_first_occurrence (env : EnvironmentVariables)
    (path pfx : String) (a b : List Char) :
    (env.standalone = true → env.pathPrefixStandalone = pfx →
      pfx.data ≠ [] → path.data = a ++ pfx.data ++ b →
      (∀ t, t ≠ [] → t <:+ a → ¬ pfx.data.isPrefixOf (t ++ pfx.data ++ b)) →
      routedPath env path = ⟨a ++ b⟩)
    ∧ (env.standalone = false → routedPath env path = path)
    ∧ routedPath { standalone := true, pathPrefixStandalone := "/eval" }
        "/eval/eval/composed/permission/" = "/eval/composed/permission/" := by
  refine ⟨?_, ?_, by decide⟩
  · intro hstand hpfx hne hpath hfirst
    unfold routedPath
    rw [hstand, if_pos rfl, hpfx]
    unfold goReplaceFirstEmpty
    rw [hpath, removeFirstOcc_first pfx.data hne a b hfirst]
  · intro hstand
    unfold routedPath
    rw [hstand]
    simp

theorem standalone_strips_first_occurrence_witness :
    routedPath { standalone := true, pathPrefixStandalone := "/eval" }
        "/eval/composed/permission/" = "/composed/permission/"
    ∧ routedPath {} "/eval/composed/permission/"
        = "/eval/composed/permission/" := by
  have h := standalone_strips_first_occurrence
    { standalone := true, pathPrefixStandalone := "/eval" }
    "/eval/composed/permission/" "/eval" [] "/composed/permission/".data
  have h2 := standalone_strips_first_occurrence {} "/eval/composed/permission/"
    "/eval" [] []
  refine ⟨(h.1 rfl rfl (by decide) (by decide) ?_).trans (by decide),
    h2.2.1 rfl⟩
  exact fun t ht hsuf => absurd (List.suffix_nil.mp hsuf) ht

/-- C9: the `Director` rewrites only `request.URL.Host` to the target
host; exactly when the incoming request carries no `User-Agent` header it
sets that header to the empty string; method, path, query, body and every
other header are left unchanged. -/
theorem director_rewrites_host_only (host : String) (req : ProxyRequest) :
    (director host req).urlHost = host
    ∧ (director host req).method = req.method
    ∧ (director host req).urlPath = req.urlPath
    ∧ (director host req).urlRawQuery = req.urlRawQuery
    ∧ (director host req).body = req.body
    ∧ (hasHeaderKey req.headers "User-Agent" = true →
        (director host req).headers = req.headers)
    ∧ (hasHeaderKey req.headers "User-Agent" = false →
        lookupHeader (director host req).headers "User-Agent" = some [""]
        ∧ ∀ k, k ≠ "User-Agent" →
            lookupHeader (director host req).headers k
              = lookupHeader req.headers k) := by
  have hcanon : canonicalHeaderKey "User-Agent" = "User-Agent" := by decide
  by_cases hua : hasHeaderKey req.headers "User-Agent"
  · have hdir : director host req = { req with urlHost := host } := by
      unfold director
      rw [if_pos hua]
    rw [hdir]
    exact ⟨rfl, rfl, rfl, rfl, rfl, fun _ => rfl,
      fun hfalse => Bool.noConfusion (hua.symm.trans hfalse)⟩
  · have hdir : director host req
        = { req with urlHost := host
                     headers := setHeaderValue req.headers
                       (canonicalHeaderKey "User-Agent") "" } := by
      unfold director
      rw [if_neg hua]
    rw [hdir]
    refine ⟨rfl, rfl, rfl, rfl, rfl, fun htrue => absurd htrue hua,
      fun _ => ⟨?_, ?_⟩⟩
    · rw [hcanon]
      exact lookupHeader_setHeaderValue_self req.headers "User-Agent" ""
    · intro k hk
      rw [hcanon]
      exact lookupHeader_setHeaderValue_other req.headers "User-Agent" "" k hk

theorem director_rewrites_host_only_witness :
    (director "target-host:8080"
        { method := "GET", urlHost := "example.com", urlPath := "/users/"
          urlRawQuery := "q=1", body := [1, 2]
          headers := [("Accept", ["*"])] }).urlHost = "target-host:8080"
    ∧ lookupHeader (director "target-host:8080"
        { method := "GET", urlHost := "example.com", urlPath := "/users/"
          urlRawQuery := "q=1", body := [1, 2]
          headers := [("Accept", ["*"])] }).headers "User-Agent" = some [""]
    ∧ (director "target-host:8080"
        { method := "GET", urlHost := "example.com", urlPath := "/users/"
          urlRawQuery := "q=1", body := [1, 2]
          headers := [("User-Agent", ["curl"]), ("Accept", ["*"])] }).headers
        = [("User-Agent", ["curl"]), ("Accept", ["*"])] := by
  have habsent := director_rewrites_host_only "target-host:8080"
    { method := "GET", urlHost := "example.com", urlPath := "/users/"
      urlRawQuery := "q=1", body := [1, 2], headers := [("Accept", ["*"])] }
  have hpresent := director_rewrites_host_only "target-host:8080"
    { method := "GET", urlHost := "example.com", urlPath := "/users/"
      urlRawQuery := "q=1", body := [1, 2]
      headers := [("User-Agent", ["curl"]), ("Accept", ["*"])] }
  exact ⟨habsent.1, (habsent.2.2.2.2.2.2 (by decide)).1,
    hpresent.2.2.2.2.2.1 (by decide)⟩

/-- C10: `unmarshalHeader` returns `(false, nil)` leaving `v` untouched
when the header is absent or stringifies to the empty string; on a
non-empty value it returns `(true, nil)` and the decoded value exactly
when decoding succeeds, and `(false, the error)` when decoding fails — a
failed decode is never reported as success. -/
theorem unmarshalHeader_success_iff_valid {V : Type} (headers : Headers)
    (headerKey : String) (v : V)
    (jsonUnmarshal : String → V → Option String × V) :
    (headerGet headers headerKey = "" →
        unmarshalHeader headers headerKey v jsonUnmarshal = (false, none, v))
    ∧ (headerGet headers headerKey ≠ "" →
        ((jsonUnmarshal (headerGet headers headerKey) v).1 = none →
          unmarshalHeader headers headerKey v jsonUnmarshal
            = (true, none, (jsonUnmarshal (headerGet headers headerKey) v).2))
        ∧ ∀ e, (jsonUnmarshal (headerGet headers headerKey) v).1 = some e →
          (unmarshalHeader headers headerKey v jsonUnmarshal).1 = false
          ∧ (unmarshalHeader headers headerKey v jsonUnmarshal).2.1
              = some e) := by
  have hbody : headerGet headers headerKey ≠ "" →
      unmarshalHeader headers headerKey v jsonUnmarshal
        = ((jsonUnmarshal (headerGet headers headerKey) v).1.isNone,
           (jsonUnmarshal (headerGet headers headerKey) v).1,
           (jsonUnmarshal (headerGet headers headerKey) v).2) := by
    intro hnonempty
    simp only [unmarshalHeader]
    rw [if_pos hnonempty]
  constructor
  · intro hempty
    simp only [unmarshalHeader]
    rw [if_neg (not_not_intro hempty)]
  · intro hnonempty
    constructor
    · intro hok
      rw [hbody hnonempty, hok]
      rfl
    · intro e herr
      rw [hbody hnonempty, herr]
      exact ⟨rfl, rfl⟩

theorem unmarshalHeader_success_iff_valid_witness :
    unmarshalHeader ([] : Headers) "miauserproperties" (0 : Nat)
        (fun s v => if s = "42" then (none, 42) else (some "invalid json", v))
      = (false, none, 0)
    ∧ unmarshalHeader [("Miauserproperties", ["42"])] "miauserproperties"
        (0 : Nat)
        (fun s v => if s = "42" then (none, 42) else (some "invalid json", v))
      = (true, none, 42)
    ∧ (unmarshalHeader [("Miauserproperties", ["nope"])] "miauserproperties"
        (0 : Nat)
        (fun s v => if s = "42" then (none, 42) else (some "invalid json", v))).1
      = false := by
  have habsent := unmarshalHeader_success_iff_valid ([] : Headers)
    "miauserproperties" (0 : Nat)
    (fun s v => if s = "42" then (none, 42) else (some "invalid json", v))
  have hok := unmarshalHeader_success_iff_valid
    [("Miauserproperties", ["42"])] "miauserproperties" (0 : Nat)
    (fun s v => if s = "42" then (none, 42) else (some "invalid json", v))
  have hbad := unmarshalHeader_success_iff_valid
    [("Miauserproperties", ["nope"])] "miauserproperties" (0 : Nat)
    (fun s v => if s = "42" then (none, 42) else (some "invalid json", v))
  refine ⟨habsent.1 (by decide), ?_, ((hbad.2 (by decide)).2 "invalid json"
    (by decide)).1⟩
  have := (hok.2 (by decide)).1 (by decide)
  simpa using this

end Rond
